import Mathlib

/-!
Verification of the change-detection and alert engine of `notifier_playwright.py`.

The script captures keyed campaign rows (cost / leads / sales / cpa), compares
them against a persisted snapshot, and sends alert messages.  The embedding
below models the decision logic faithfully: Python floats become rationals
(`ℚ`), Python dicts become insertion-ordered association lists, and the alert
messages become structured events carrying the fields that the formatted text
interpolates (key, previous value, new value, delta, shown percentage).
-/

namespace KtBot

/-- `EPS = 0.009` from the script: anything above about one cent counts as a change. -/
def EPS : ℚ := 9/1000

/-- Tolerance `1e-6` used by `clamp_monotonic`. -/
def CLAMP_TOL : ℚ := 1/1000000

/-- Tie guard `1e-9` used when replacing the best spend message for a key. -/
def SCORE_TOL : ℚ := 1/1000000000

/-- `SPEND_DIRECTION` configuration: `up`, `down`, or `both`.  The script treats
any string other than `"up"` / `"down"` as `both`, so three values suffice. -/
inductive Direction
| up
| down
| both
deriving DecidableEq

/-- `direction_ok(delta)` from the script: `up`: `delta > EPS`; `down`:
`delta < -EPS`; otherwise `abs(delta) > EPS`. -/
def direction_ok (d : Direction) (delta : ℚ) : Bool :=
  match d with
  | .up => decide (EPS < delta)
  | .down => decide (delta < -EPS)
  | .both => decide (EPS < |delta|)

/-- `pct(delta, base)` from the script: a 100%/0% fallback on a near-zero base,
else `abs(delta / base) * 100`. -/
def pct (delta base : ℚ) : ℚ :=
  if |base| < EPS then (if EPS ≤ |delta| then 100 else 0)
  else |delta / base| * 100

/-- `clamp_monotonic(new_v, old_v)` from the script: keep `new_v` unless it fell
more than `1e-6` below `old_v`, in which case keep `old_v`.  (The `old_v is
None` guard in the source is dead at both call sites, which always pass a
numeric default.) -/
def clamp_monotonic (new_v old_v : ℚ) : ℚ :=
  if old_v - CLAMP_TOL ≤ new_v then new_v else old_v

/-! ### Insertion-ordered association lists (the embedding of Python dicts) -/

/-- First value stored under key `k`, if any (Python `m.get(k)`). -/
def lookupD {α : Type} : List (String × α) → String → Option α
  | [], _ => none
  | (k', v) :: t, k => if k' = k then some v else lookupD t k

/-- Replace the value stored under key `k`, keeping its position. -/
def replaceD {α : Type} (m : List (String × α)) (k : String) (v : α) :
    List (String × α) :=
  m.map (fun p => if p.1 = k then (k, v) else p)

/-- Python `m[k] = v`: overwrite in place when the key exists, else append. -/
def insertD {α : Type} (m : List (String × α)) (k : String) (v : α) :
    List (String × α) :=
  match lookupD m k with
  | some _ => replaceD m k v
  | none => m ++ [(k, v)]

/-- The keys of an association list, in insertion order. -/
def keysD {α : Type} (m : List (String × α)) : List String := m.map Prod.fst

/-! ### Data model -/

/-- One normalized captured row (`{"k": ..., "campaign": ..., "cost": ...}`). -/
structure Row where
  k : String
  campaign : String
  sub_id_6 : String
  sub_id_5 : String
  sub_id_4 : String
  geo : String
  cost : ℚ
  leads : ℚ
  sales : ℚ
  cpa : ℚ
deriving DecidableEq

/-- One raw JSON report row as read by `parse_report_from_json`: each dimension
may live at top level or inside the `dimensions` object (absence is modelled as
`""`, which is also how Python's `or`-chains treat it). -/
structure RawRow where
  campaign : String
  sub_id_6 : String
  sub_id_5 : String
  sub_id_4 : String
  geo : String
  country : String
  country_code : String
  country_flag : String
  dims_campaign : String
  dims_sub_id_6 : String
  dims_sub_id_5 : String
  dims_sub_id_4 : String
  dims_geo : String
  dims_country : String
  dims_country_code : String
  dims_country_flag : String
  cost : ℚ
  leads : ℚ
  sales : ℚ
  cpa : ℚ
deriving DecidableEq

/-- Python's `a or b` on strings: `b` when `a` is empty (falsy), else `a`. -/
def pyOr (a b : String) : String := if a = "" then b else a

/-- `g("campaign")` from `parse_report_from_json`: top-level value, falling back
to `dimensions`, falling back to `""`. -/
def gCampaign (r : RawRow) : String := pyOr r.campaign r.dims_campaign

/-- `g("sub_id_6")`. -/
def gSub6 (r : RawRow) : String := pyOr r.sub_id_6 r.dims_sub_id_6

/-- `g("sub_id_5")`. -/
def gSub5 (r : RawRow) : String := pyOr r.sub_id_5 r.dims_sub_id_5

/-- `g("sub_id_4")`. -/
def gSub4 (r : RawRow) : String := pyOr r.sub_id_4 r.dims_sub_id_4

/-- `geo_val = str(g("geo") or g("country") or g("country_code") or g("country_flag"))`. -/
def gGeoVal (r : RawRow) : String :=
  pyOr (pyOr r.geo r.dims_geo)
    (pyOr (pyOr r.country r.dims_country)
      (pyOr (pyOr r.country_code r.dims_country_code)
        (pyOr r.country_flag r.dims_country_flag)))

/-- `key = f"{g('campaign')}|{g('sub_id_6')}|{g('sub_id_5')}|{g('sub_id_4')}|{geo_val}"`. -/
def rawKey (r : RawRow) : String :=
  gCampaign r ++ "|" ++ gSub6 r ++ "|" ++ gSub5 r ++ "|" ++ gSub4 r ++ "|" ++ gGeoVal r

/-- The dict appended for each raw row by `parse_report_from_json`. -/
def parseRow (r : RawRow) : Row :=
  { k := rawKey r
    campaign := gCampaign r
    sub_id_6 := gSub6 r
    sub_id_5 := gSub5 r
    sub_id_4 := gSub4 r
    geo := gGeoVal r
    cost := r.cost
    leads := r.leads
    sales := r.sales
    cpa := r.cpa }

/-- `parse_report_from_json` over the payload's row list. -/
def parse_report_from_json (rows : List RawRow) : List Row := rows.map parseRow

/-! ### `aggregate_rows_max` -/

/-- The in-place merge performed on a duplicate key: per-metric maximum, with
the dimension fields of the first occurrence kept. -/
def mergeRow (a r : Row) : Row :=
  { a with
    cost := max a.cost r.cost
    leads := max a.leads r.leads
    sales := max a.sales r.sales
    cpa := max a.cpa r.cpa }

/-- One iteration of the `aggregate_rows_max` loop over the accumulator dict. -/
def aggStep (acc : List (String × Row)) (r : Row) : List (String × Row) :=
  match lookupD acc r.k with
  | none => acc ++ [(r.k, r)]
  | some a => replaceD acc r.k (mergeRow a r)

/-- The accumulator dict built by `aggregate_rows_max`. -/
def aggMap (rows : List Row) : List (String × Row) := rows.foldl aggStep []

/-- `aggregate_rows_max(rows)`: `list(acc.values())`. -/
def aggregate_rows_max (rows : List Row) : List Row := (aggMap rows).map Prod.snd

/-! ### Events (the structured content of the formatted alert messages) -/

/-- A spend alert: the formatted message interpolates the key's row, the old and
new cost, the delta and the percentage shown. -/
structure SpendMsg where
  key : String
  prevCost : ℚ
  newCost : ℚ
  delta : ℚ
  pctShown : ℚ
deriving DecidableEq

/-- A lead alert (`Leads: old → new`). -/
structure LeadMsg where
  key : String
  prevLeads : ℚ
  newLeads : ℚ
deriving DecidableEq

/-- A sale alert (`Sales: old → new`). -/
structure SaleMsg where
  key : String
  prevSales : ℚ
  newSales : ℚ
deriving DecidableEq

/-- The persisted state blob: `{"date": ..., "rows": {...}}`. -/
structure State where
  date : String
  rows : List (String × Row)
deriving DecidableEq

/-- The dict `load_state` returns whenever the gist fetch fails, the file is
missing, or its content does not parse: today's date and an empty row map. -/
def load_state_fallback (today : String) : State := ⟨today, []⟩

/-! ### The `main` same-day loop -/

/-- The row written into `new_map` for key `r.k`: metrics clamped against the
previous row when one exists, the raw row otherwise. -/
def persistRow (prev : List (String × Row)) (r : Row) : Row :=
  match lookupD prev r.k with
  | some old =>
    { r with
      cost := clamp_monotonic r.cost old.cost
      leads := clamp_monotonic r.leads old.leads
      sales := clamp_monotonic r.sales old.sales }
  | none => r

/-- The guarded update of `best_spend_msg[k]` in the present-key branch: a new
candidate replaces the stored one only when its score beats it by more than
`1e-9`. -/
def updateBestGuarded (m : List (String × (ℚ × SpendMsg))) (k : String)
    (score : ℚ) (msg : SpendMsg) : List (String × (ℚ × SpendMsg)) :=
  match lookupD m k with
  | none => m ++ [(k, (score, msg))]
  | some best => if best.1 + SCORE_TOL < score then replaceD m k (score, msg) else m

/-- Effect of one loop iteration on `best_spend_msg`.  Present key: clamp the
cost, gate on `direction_ok`, guarded update with score `|delta|`.  Absent key:
when `cost > EPS`, unconditional dict assignment of a synthetic `0 → cost`
message with score `cost` and a hard-coded 100%. -/
def spendStep (d : Direction) (prev : List (String × Row))
    (m : List (String × (ℚ × SpendMsg))) (r : Row) :
    List (String × (ℚ × SpendMsg)) :=
  match lookupD prev r.k with
  | some old =>
    let newCost := clamp_monotonic r.cost old.cost
    let delta := newCost - old.cost
    if direction_ok d delta then
      updateBestGuarded m r.k |delta| ⟨r.k, old.cost, newCost, delta, pct delta old.cost⟩
    else m
  | none =>
    if EPS < r.cost then insertD m r.k (r.cost, ⟨r.k, 0, r.cost, r.cost, 100⟩)
    else m

/-- Lead messages one loop iteration appends: present key fires on
`clamped_new - old > EPS`; absent key fires on `leads > EPS` with a `0 → new`
message. -/
def leadFor (prev : List (String × Row)) (r : Row) : List LeadMsg :=
  match lookupD prev r.k with
  | some old =>
    let newLeads := clamp_monotonic r.leads old.leads
    if EPS < newLeads - old.leads then [⟨r.k, old.leads, newLeads⟩] else []
  | none =>
    if EPS < r.leads then [⟨r.k, 0, r.leads⟩] else []

/-- Sale messages one loop iteration appends (same shape as `leadFor`). -/
def saleFor (prev : List (String × Row)) (r : Row) : List SaleMsg :=
  match lookupD prev r.k with
  | some old =>
    let newSales := clamp_monotonic r.sales old.sales
    if EPS < newSales - old.sales then [⟨r.k, old.sales, newSales⟩] else []
  | none =>
    if EPS < r.sales then [⟨r.k, 0, r.sales⟩] else []

/-- The four accumulators mutated by the `main` loop. -/
structure RunAcc where
  spendBest : List (String × (ℚ × SpendMsg))
  leadMsgs : List LeadMsg
  saleMsgs : List SaleMsg
  newMap : List (String × Row)
deriving DecidableEq

/-- One iteration of the `main` loop: each accumulator's update depends only on
the previous snapshot and the current row, so the body splits componentwise. -/
def step (d : Direction) (prev : List (String × Row)) (acc : RunAcc) (r : Row) :
    RunAcc :=
  { spendBest := spendStep d prev acc.spendBest r
    leadMsgs := acc.leadMsgs ++ leadFor prev r
    saleMsgs := acc.saleMsgs ++ saleFor prev r
    newMap := insertD acc.newMap r.k (persistRow prev r) }

/-- The full same-day pass of `main` over the captured rows. -/
def runSameDay (d : Direction) (prev : List (String × Row)) (rows : List Row) :
    RunAcc :=
  rows.foldl (step d prev) ⟨[], [], [], []⟩

/-- `spend_msgs = [v[1] for v in best_spend_msg.values()]`. -/
def spendMsgsOf (acc : RunAcc) : List SpendMsg := acc.spendBest.map (fun p => p.2.2)

/-- `{r["k"]: r for r in rows}`: the baseline dict built on a new day. -/
def buildMap (rows : List Row) : List (String × Row) :=
  rows.foldl (fun m r => insertD m r.k r) []

/-- The decision structure of `main` after fetching: empty capture → bail out
with nothing saved; stored date differs from today → save the capture as the
baseline and emit no events; otherwise run the same-day loop and save its
`new_map`. -/
def mainRun (d : Direction) (st : State) (today : String) (rows : List Row) :
    (List SpendMsg × List LeadMsg × List SaleMsg) × Option State :=
  if rows = [] then (([], [], []), none)
  else if st.date ≠ today then (([], [], []), some ⟨today, buildMap rows⟩)
  else
    let res := runSameDay d st.rows rows
    ((spendMsgsOf res, res.leadMsgs, res.saleMsgs), some ⟨today, res.newMap⟩)

/-- A helper row used by concrete instances below. -/
def mkRow (k : String) (cost leads sales : ℚ) : Row :=
  ⟨k, "camp", "s6", "s5", "s4", "", cost, leads, sales, 0⟩

/-- Well-formedness of the `best_spend_msg` dict: keys are distinct and every
stored message carries the key it is filed under. -/
def wfBest (m : List (String × (ℚ × SpendMsg))) : Prop :=
  (keysD m).Nodup ∧ ∀ p ∈ m, (p.2.2).key = p.1

/-- A concrete raw report row (all dimensions at top level, empty fallbacks). -/
def rawA : RawRow :=
  ⟨"Camp", "x", "y", "z", "US", "", "", "", "", "", "", "", "", "", "", "", 5, 1, 0, 0⟩

/-- The same raw row with a single trailing space appended to the campaign. -/
def rawB : RawRow := { rawA with campaign := "Camp " }

/-! ### Basic lemmas about the numeric helpers -/

theorem clamp_self (c : ℚ) : clamp_monotonic c c = c := by
  have h : c - CLAMP_TOL ≤ c := by
    have : (0 : ℚ) < CLAMP_TOL := by norm_num [CLAMP_TOL]
    linarith
  simp [clamp_monotonic, h]

theorem clamp_clamp (c p : ℚ) :
    clamp_monotonic c (clamp_monotonic c p) = clamp_monotonic c p := by
  unfold clamp_monotonic
  by_cases h : p - CLAMP_TOL ≤ c
  · simp only [if_pos h]
    have h' : c - CLAMP_TOL ≤ c := by
      have : (0 : ℚ) < CLAMP_TOL := by norm_num [CLAMP_TOL]
      linarith
    simp [h']
  · simp [if_neg h, h]

theorem clamp_of_lt {c p : ℚ} (h : c < p - CLAMP_TOL) : clamp_monotonic c p = p := by
  have h' : ¬ p - CLAMP_TOL ≤ c := not_le.mpr h
  simp [clamp_monotonic, h']

theorem clamp_lower (c p : ℚ) : p - CLAMP_TOL ≤ clamp_monotonic c p := by
  unfold clamp_monotonic
  by_cases h : p - CLAMP_TOL ≤ c
  · simp [h]
  · have : (0 : ℚ) < CLAMP_TOL := by norm_num [CLAMP_TOL]
    simp [h]
    linarith

theorem direction_ok_zero (d : Direction) : direction_ok d 0 = false := by
  cases d <;> norm_num [direction_ok, EPS]

/-! ### Basic lemmas about the association-list operations -/

theorem lookupD_nil {α : Type} (k : String) : lookupD ([] : List (String × α)) k = none := rfl

theorem lookupD_cons_self {α : Type} (k : String) (v : α) (t : List (String × α)) :
    lookupD ((k, v) :: t) k = some v := by
  simp [lookupD]

theorem lookupD_cons_ne {α : Type} {k k' : String} (v : α) (t : List (String × α))
    (h : k' ≠ k) : lookupD ((k', v) :: t) k = lookupD t k := by
  simp [lookupD, h]

theorem replaceD_nil {α : Type} (k : String) (v : α) :
    replaceD ([] : List (String × α)) k v = [] := rfl

theorem replaceD_cons_self {α : Type} (k : String) (w v : α) (t : List (String × α)) :
    replaceD ((k, w) :: t) k v = (k, v) :: replaceD t k v := by
  simp [replaceD]

theorem replaceD_cons_ne {α : Type} {k k' : String} (w v : α) (t : List (String × α))
    (h : k' ≠ k) : replaceD ((k', w) :: t) k v = (k', w) :: replaceD t k v := by
  simp [replaceD, h]

theorem lookupD_append {α : Type} (m m' : List (String × α)) (k : String) :
    lookupD (m ++ m') k =
      match lookupD m k with
      | some v => some v
      | none => lookupD m' k := by
  induction m with
  | nil => simp [lookupD]
  | cons p t ih =>
    obtain ⟨k', v⟩ := p
    by_cases h : k' = k
    · subst h
      simp [lookupD_cons_self]
    · rw [List.cons_append, lookupD_cons_ne v _ h, lookupD_cons_ne v t h, ih]

theorem lookupD_replaceD_self {α : Type} (m : List (String × α)) (k : String) (v : α) :
    lookupD (replaceD m k v) k = (lookupD m k).map (fun _ => v) := by
  induction m with
  | nil => simp [lookupD, replaceD]
  | cons p t ih =>
    obtain ⟨k', w⟩ := p
    by_cases h : k' = k
    · subst h
      rw [replaceD_cons_self, lookupD_cons_self, lookupD_cons_self]
      rfl
    · rw [replaceD_cons_ne w v t h, lookupD_cons_ne _ _ h, lookupD_cons_ne _ _ h, ih]

theorem lookupD_replaceD_ne {α : Type} (m : List (String × α)) (k k' : String) (v : α)
    (h : k' ≠ k) : lookupD (replaceD m k v) k' = lookupD m k' := by
  induction m with
  | nil => simp [replaceD]
  | cons p t ih =>
    obtain ⟨k₀, w⟩ := p
    by_cases h0 : k₀ = k
    · subst h0
      rw [replaceD_cons_self, lookupD_cons_ne _ _ (Ne.symm h),
        lookupD_cons_ne _ _ (Ne.symm h), ih]
    · by_cases h1 : k₀ = k'
      · subst h1
        rw [replaceD_cons_ne w v t h0, lookupD_cons_self, lookupD_cons_self]
      · rw [replaceD_cons_ne w v t h0, lookupD_cons_ne _ _ h1, lookupD_cons_ne _ _ h1, ih]

theorem lookupD_insertD_self {α : Type} (m : List (String × α)) (k : String) (v : α) :
    lookupD (insertD m k v) k = some v := by
  unfold insertD
  cases h : lookupD m k with
  | none => simp [lookupD_append, h, lookupD]
  | some w => simp [lookupD_replaceD_self, h]

theorem lookupD_insertD_ne {α : Type} (m : List (String × α)) (k k' : String) (v : α)
    (h : k' ≠ k) : lookupD (insertD m k v) k' = lookupD m k' := by
  unfold insertD
  cases h0 : lookupD m k with
  | none =>
    rw [lookupD_append]
    cases h1 : lookupD m k' with
    | none => simp [lookupD, Ne.symm h]
    | some w => simp
  | some w => exact lookupD_replaceD_ne m k k' v h

theorem lookupD_eq_none_iff {α : Type} (m : List (String × α)) (k : String) :
    lookupD m k = none ↔ k ∉ keysD m := by
  induction m with
  | nil => simp [lookupD, keysD]
  | cons p t ih =>
    obtain ⟨k', v⟩ := p
    by_cases h : k' = k
    · subst h
      simp [lookupD_cons_self, keysD]
    · rw [lookupD_cons_ne _ _ h]
      simp only [keysD, List.map_cons, List.mem_cons]
      constructor
      · intro hn hmem
        rcases hmem with hmem | hmem
        · exact h hmem.symm
        · exact (ih.mp hn) hmem
      · intro hmem
        exact ih.mpr (fun hk => hmem (Or.inr hk))

theorem keysD_replaceD {α : Type} (m : List (String × α)) (k : String) (v : α) :
    keysD (replaceD m k v) = keysD m := by
  induction m with
  | nil => simp [replaceD, keysD]
  | cons p t ih =>
    obtain ⟨k', w⟩ := p
    by_cases h : k' = k
    · subst h
      rw [replaceD_cons_self]
      simp only [keysD, List.map_cons] at ih ⊢
      rw [ih]
    · rw [replaceD_cons_ne w v t h]
      simp only [keysD, List.map_cons] at ih ⊢
      rw [ih]

theorem keysD_append {α : Type} (m m' : List (String × α)) :
    keysD (m ++ m') = keysD m ++ keysD m' := by
  simp [keysD]

theorem nodup_keysD_insertD {α : Type} (m : List (String × α)) (k : String) (v : α)
    (h : (keysD m).Nodup) : (keysD (insertD m k v)).Nodup := by
  unfold insertD
  cases h0 : lookupD m k with
  | none =>
    have hk : k ∉ keysD m := (lookupD_eq_none_iff m k).mp h0
    rw [keysD_append, List.nodup_append]
    refine ⟨h, by simp [keysD], ?_⟩
    intro a ha hmem
    have ha' : a = k := by simpa [keysD] using hmem
    exact hk (ha' ▸ ha)
  | some w => simpa [keysD_replaceD] using h

theorem mem_of_lookupD_eq_some {α : Type} {m : List (String × α)} {k : String} {v : α}
    (h : lookupD m k = some v) : (k, v) ∈ m := by
  induction m with
  | nil => simp [lookupD] at h
  | cons p t ih =>
    obtain ⟨k', w⟩ := p
    by_cases h0 : k' = k
    · subst h0
      rw [lookupD_cons_self] at h
      cases h
      exact List.mem_cons_self _ _
    · rw [lookupD_cons_ne _ _ h0] at h
      exact List.mem_cons_of_mem _ (ih h)

/-! ### Generic fold lemmas -/

theorem foldl_fix {β γ : Type} (g : β → γ → β) (l : List γ) (acc : β)
    (h : ∀ x ∈ l, ∀ a, g a x = a) : l.foldl g acc = acc := by
  induction l generalizing acc with
  | nil => rfl
  | cons x t ih =>
    rw [List.foldl_cons, h x (List.mem_cons_self x t) acc]
    exact ih acc (fun y hy => h y (List.mem_cons_of_mem x hy))

theorem lookupD_foldl_insertD_ne {β γ : Type} (kf : γ → String) (vf : γ → β)
    (l : List γ) (acc : List (String × β)) (k : String) (h : ∀ x ∈ l, kf x ≠ k) :
    lookupD (l.foldl (fun m x => insertD m (kf x) (vf x)) acc) k = lookupD acc k := by
  induction l generalizing acc with
  | nil => rfl
  | cons y t ih =>
    rw [List.foldl_cons, ih _ (fun x hx => h x (List.mem_cons_of_mem y hx)),
      lookupD_insertD_ne _ _ _ _ (Ne.symm (h y (List.mem_cons_self y t)))]

theorem lookupD_foldl_insertD_mem {β γ : Type} (kf : γ → String) (vf : γ → β)
    (l : List γ) (acc : List (String × β)) (x : γ) (hx : x ∈ l)
    (hnd : (l.map kf).Nodup) :
    lookupD (l.foldl (fun m y => insertD m (kf y) (vf y)) acc) (kf x) = some (vf x) := by
  induction l generalizing acc with
  | nil => cases hx
  | cons y t ih =>
    rw [List.map_cons, List.nodup_cons] at hnd
    rcases List.mem_cons.mp hx with rfl | hxt
    · rw [List.foldl_cons,
        lookupD_foldl_insertD_ne kf vf t _ (kf x)
          (fun z hz e => hnd.1 (e ▸ List.mem_map_of_mem kf hz)),
        lookupD_insertD_self]
    · exact ih _ hxt hnd.2

/-! ### Componentwise view of the main loop -/

theorem foldl_step_spendBest (d : Direction) (prev : List (String × Row))
    (rows : List Row) (acc : RunAcc) :
    (rows.foldl (step d prev) acc).spendBest =
      rows.foldl (spendStep d prev) acc.spendBest := by
  induction rows generalizing acc with
  | nil => rfl
  | cons r t ih => rw [List.foldl_cons, List.foldl_cons, ih]; rfl

theorem foldl_step_leadMsgs (d : Direction) (prev : List (String × Row))
    (rows : List Row) (acc : RunAcc) :
    (rows.foldl (step d prev) acc).leadMsgs =
      rows.foldl (fun l r => l ++ leadFor prev r) acc.leadMsgs := by
  induction rows generalizing acc with
  | nil => rfl
  | cons r t ih => rw [List.foldl_cons, List.foldl_cons, ih]; rfl

theorem foldl_step_saleMsgs (d : Direction) (prev : List (String × Row))
    (rows : List Row) (acc : RunAcc) :
    (rows.foldl (step d prev) acc).saleMsgs =
      rows.foldl (fun l r => l ++ saleFor prev r) acc.saleMsgs := by
  induction rows generalizing acc with
  | nil => rfl
  | cons r t ih => rw [List.foldl_cons, List.foldl_cons, ih]; rfl

theorem foldl_step_newMap (d : Direction) (prev : List (String × Row))
    (rows : List Row) (acc : RunAcc) :
    (rows.foldl (step d prev) acc).newMap =
      rows.foldl (fun m r => insertD m r.k (persistRow prev r)) acc.newMap := by
  induction rows generalizing acc with
  | nil => rfl
  | cons r t ih => rw [List.foldl_cons, List.foldl_cons, ih]; rfl

/-! ### Re-diffing a persisted row changes nothing -/

theorem persistRow_cost_fix (prev : List (String × Row)) (r : Row) :
    clamp_monotonic r.cost (persistRow prev r).cost = (persistRow prev r).cost := by
  cases h : lookupD prev r.k with
  | none => simp [persistRow, h, clamp_self]
  | some old => simp [persistRow, h, clamp_clamp]

theorem persistRow_leads_fix (prev : List (String × Row)) (r : Row) :
    clamp_monotonic r.leads (persistRow prev r).leads = (persistRow prev r).leads := by
  cases h : lookupD prev r.k with
  | none => simp [persistRow, h, clamp_self]
  | some old => simp [persistRow, h, clamp_clamp]

theorem persistRow_sales_fix (prev : List (String × Row)) (r : Row) :
    clamp_monotonic r.sales (persistRow prev r).sales = (persistRow prev r).sales := by
  cases h : lookupD prev r.k with
  | none => simp [persistRow, h, clamp_self]
  | some old => simp [persistRow, h, clamp_clamp]

theorem spendStep_of_clamp_fix (d : Direction) (p2 : List (String × Row)) (r old2 : Row)
    (h : lookupD p2 r.k = some old2)
    (hc : clamp_monotonic r.cost old2.cost = old2.cost) (m : List (String × (ℚ × SpendMsg))) :
    spendStep d p2 m r = m := by
  unfold spendStep
  rw [h]
  simp only [hc, sub_self, direction_ok_zero, Bool.false_eq_true, if_false]

theorem leadFor_of_clamp_fix (p2 : List (String × Row)) (r old2 : Row)
    (h : lookupD p2 r.k = some old2)
    (hl : clamp_monotonic r.leads old2.leads = old2.leads) : leadFor p2 r = [] := by
  unfold leadFor
  rw [h]
  simp only [hl, sub_self]
  norm_num [EPS]

theorem saleFor_of_clamp_fix (p2 : List (String × Row)) (r old2 : Row)
    (h : lookupD p2 r.k = some old2)
    (hs : clamp_monotonic r.sales old2.sales = old2.sales) : saleFor p2 r = [] := by
  unfold saleFor
  rw [h]
  simp only [hs, sub_self]
  norm_num [EPS]

/-! ### Claim C1 -/

/-- Claim C1, corrected.  The code has no absolute or percentage spend
thresholds: for a key present in the previous snapshot, a SPEND message is
produced exactly when the clamped cost delta satisfies the configured direction
policy (with the `EPS` noise guard), and nothing else is consulted. -/
theorem C1_spend_direction_only (d : Direction) (prev : List (String × Row)) (old r : Row)
    (h : lookupD prev r.k = some old) :
    spendMsgsOf (runSameDay d prev [r]) ≠ [] ↔
      direction_ok d (clamp_monotonic r.cost old.cost - old.cost) = true := by
  have hsb : (runSameDay d prev [r]).spendBest = spendStep d prev [] r := by
    rw [runSameDay, foldl_step_spendBest]
    rfl
  rw [spendMsgsOf, hsb]
  cases hd : direction_ok d (clamp_monotonic r.cost old.cost - old.cost) <;>
    simp [spendStep, h, hd, updateBestGuarded, lookupD]

/-- Claim C1 witness: at the claim's own second data point (`1000 → 1021`,
direction `up`) the gate theorem applies and the event fires. -/
theorem C1_witness :
    lookupD [(("k" : String), mkRow "k" 1000 0 0)] (mkRow "k" 1021 0 0).k =
      some (mkRow "k" 1000 0 0) ∧
    (spendMsgsOf (runSameDay .up [("k", mkRow "k" 1000 0 0)] [mkRow "k" 1021 0 0]) ≠ [] ↔
      direction_ok .up (clamp_monotonic (mkRow "k" 1021 0 0).cost (mkRow "k" 1000 0 0).cost -
        (mkRow "k" 1000 0 0).cost) = true) :=
  ⟨by simp [lookupD, mkRow],
   C1_spend_direction_only .up [("k", mkRow "k" 1000 0 0)] (mkRow "k" 1000 0 0)
     (mkRow "k" 1021 0 0) (by simp [lookupD, mkRow])⟩

/-- Claim C1 counterexample: the claim says that with `old_cost = 1000`,
`new_cost = 1015`, direction `up` and thresholds 20 / 20% no event is produced;
the code emits exactly one SPEND message here (Δ = 15 > `EPS`), because no
threshold exists. -/
theorem C1_counterexample :
    spendMsgsOf (runSameDay .up [("k", mkRow "k" 1000 0 0)] [mkRow "k" 1015 0 0]) =
      [⟨"k", 1000, 1015, 15, 3/2⟩] := by
  norm_num [spendMsgsOf, runSameDay, step, spendStep, lookupD, mkRow, clamp_monotonic,
    CLAMP_TOL, direction_ok, EPS, updateBestGuarded, pct, abs]

/-! ### Claim C2 -/

/-- Claim C2, corrected.  When loading prior state fails, `load_state` falls
back to today's date with an empty row map, so the run takes the SAME_DAY path
with an empty previous snapshot: every captured key is a first sighting and a
synthetic `0 → value` SPEND event IS emitted for a positive cost — not the
silent NEW_DAY behaviour the claim describes. -/
theorem C2_absent_state_emits (d : Direction) (today : String) (r : Row)
    (h : EPS < r.cost) :
    (mainRun d (load_state_fallback today) today [r]).1.1 =
      [⟨r.k, 0, r.cost, r.cost, 100⟩] ∧
    (mainRun d (load_state_fallback today) today [r]).2 = some ⟨today, [(r.k, r)]⟩ := by
  constructor <;>
    simp [mainRun, load_state_fallback, runSameDay, step, spendStep, spendMsgsOf,
      lookupD, insertD, persistRow, h]

/-- Claim C2 witness: a concrete run with absent prior state and one captured
row with cost 50 emits the synthetic baseline event and persists the row. -/
theorem C2_witness :
    EPS < (mkRow "a" 50 2 1).cost ∧
    ((mainRun .both (load_state_fallback "2024-06-01") "2024-06-01" [mkRow "a" 50 2 1]).1.1 =
      [⟨(mkRow "a" 50 2 1).k, 0, (mkRow "a" 50 2 1).cost, (mkRow "a" 50 2 1).cost, 100⟩] ∧
    (mainRun .both (load_state_fallback "2024-06-01") "2024-06-01" [mkRow "a" 50 2 1]).2 =
      some ⟨"2024-06-01", [((mkRow "a" 50 2 1).k, mkRow "a" 50 2 1)]⟩) :=
  ⟨by norm_num [EPS, mkRow],
   C2_absent_state_emits .both "2024-06-01" (mkRow "a" 50 2 1) (by norm_num [EPS, mkRow])⟩

/-- Claim C2 counterexample: the claim says an absent-state run emits no event
at all (like NEW_DAY); the code emits a first-sighting SPEND event. -/
theorem C2_counterexample :
    (mainRun .both (load_state_fallback "2024-05-02") "2024-05-02" [mkRow "a" 50 0 0]).1.1 =
      [⟨"a", 0, 50, 50, 100⟩] ∧
    ([(⟨"a", 0, 50, 50, 100⟩ : SpendMsg)] : List SpendMsg) ≠ [] := by
  refine ⟨?_, by simp⟩
  norm_num [mainRun, load_state_fallback, runSameDay, step, spendStep, spendMsgsOf,
    lookupD, insertD, persistRow, EPS, mkRow]

/-! ### Claim C3 -/

/-- Claim C3, corrected.  `cost` IS clamped exactly like `leads` and `sales`:
when the new cost falls more than `1e-6` below the stored cost, the old cost is
both persisted and used for diffing (so the delta is zero and no SPEND message
fires). -/
theorem C3_cost_is_clamped (d : Direction) (old r : Row)
    (h : r.cost < old.cost - CLAMP_TOL) :
    lookupD (runSameDay d [(r.k, old)] [r]).newMap r.k =
      some { r with cost := old.cost,
                    leads := clamp_monotonic r.leads old.leads,
                    sales := clamp_monotonic r.sales old.sales } ∧
    spendMsgsOf (runSameDay d [(r.k, old)] [r]) = [] := by
  have hl : lookupD [(r.k, old)] r.k = some old := lookupD_cons_self _ _ _
  have hc : clamp_monotonic r.cost old.cost = old.cost := clamp_of_lt h
  constructor
  · rw [runSameDay, foldl_step_newMap]
    show lookupD (insertD [] r.k (persistRow [(r.k, old)] r)) r.k = _
    rw [lookupD_insertD_self]
    simp [persistRow, hl, hc]
  · rw [spendMsgsOf, runSameDay, foldl_step_spendBest]
    show (spendStep d [(r.k, old)] [] r).map _ = []
    rw [spendStep_of_clamp_fix d _ r old hl hc]
    rfl

/-- Claim C3 witness: stored cost 100, captured cost 50 — the persisted cost is
100 and no SPEND message is emitted. -/
theorem C3_witness :
    lookupD (runSameDay .both [(("k" : String), mkRow "k" 100 0 0)] [mkRow "k" 50 0 0]).newMap
        (mkRow "k" 50 0 0).k =
      some { mkRow "k" 50 0 0 with
              cost := (mkRow "k" 100 0 0).cost,
              leads := clamp_monotonic (mkRow "k" 50 0 0).leads (mkRow "k" 100 0 0).leads,
              sales := clamp_monotonic (mkRow "k" 50 0 0).sales (mkRow "k" 100 0 0).sales } ∧
    spendMsgsOf (runSameDay .both [("k", mkRow "k" 100 0 0)] [mkRow "k" 50 0 0]) = [] :=
  C3_cost_is_clamped .both (mkRow "k" 100 0 0) (mkRow "k" 50 0 0)
    (by norm_num [mkRow, CLAMP_TOL])

/-- Claim C3 counterexample: the claim says the persisted cost always equals the
newly captured cost; with stored cost 100 and captured cost 50 the code persists
100. -/
theorem C3_counterexample :
    lookupD (runSameDay .both [("k", mkRow "k" 100 0 0)] [mkRow "k" 50 0 0]).newMap "k" =
      some (mkRow "k" 100 0 0) ∧
    (mkRow "k" 100 0 0).cost ≠ (mkRow "k" 50 0 0).cost := by
  refine ⟨?_, by norm_num [mkRow]⟩
  norm_num [runSameDay, step, spendStep, leadFor, saleFor, persistRow, insertD, lookupD,
    replaceD, mkRow, clamp_monotonic, CLAMP_TOL, EPS, direction_ok, updateBestGuarded,
    pct, abs]

/-! ### Claim C4 -/

/-- Claim C4, confirmed.  On a non-empty capture whose stored day differs from
the current day, `main` emits no events at all and saves the current capture
verbatim as the baseline for the new day. -/
theorem C4_new_day_silent (d : Direction) (st : State) (today : String) (rows : List Row)
    (hd : st.date ≠ today) (hr : rows ≠ []) :
    mainRun d st today rows = (([], [], []), some ⟨today, buildMap rows⟩) := by
  simp [mainRun, hr, hd]

/-- Claim C4 witness: stored day `2024-05-01`, current day `2024-05-02`, a
capture with large deltas against the stored row — still zero events, baseline
replaced. -/
theorem C4_witness :
    (⟨"2024-05-01", [("k", mkRow "k" 1 0 0)]⟩ : State).date ≠ "2024-05-02" ∧
    ([mkRow "k" 1000 5 3] : List Row) ≠ [] ∧
    mainRun .both ⟨"2024-05-01", [("k", mkRow "k" 1 0 0)]⟩ "2024-05-02" [mkRow "k" 1000 5 3] =
      (([], [], []), some ⟨"2024-05-02", buildMap [mkRow "k" 1000 5 3]⟩) :=
  ⟨by decide, by simp,
   C4_new_day_silent .both ⟨"2024-05-01", [("k", mkRow "k" 1 0 0)]⟩ "2024-05-02"
     [mkRow "k" 1000 5 3] (by decide) (by simp)⟩

/-! ### Claim C5 -/

/-- Claim C5, corrected.  A `leads`/`sales` regression of more than `1e-6`
persists the old value and emits no message for that metric, and the persisted
value never falls more than `1e-6` below the stored one; regressions inside the
`1e-6` tolerance band keep the (smaller) new value, so the claim's literal
`new < old` trigger is slightly too broad. -/
theorem C5_monotonic_clamp (d : Direction) (old r : Row) :
    lookupD (runSameDay d [(r.k, old)] [r]).newMap r.k = some (persistRow [(r.k, old)] r) ∧
    (r.leads < old.leads - CLAMP_TOL →
      (persistRow [(r.k, old)] r).leads = old.leads ∧
      (runSameDay d [(r.k, old)] [r]).leadMsgs = []) ∧
    (r.sales < old.sales - CLAMP_TOL →
      (persistRow [(r.k, old)] r).sales = old.sales ∧
      (runSameDay d [(r.k, old)] [r]).saleMsgs = []) ∧
    old.leads - CLAMP_TOL ≤ (persistRow [(r.k, old)] r).leads ∧
    old.sales - CLAMP_TOL ≤ (persistRow [(r.k, old)] r).sales := by
  have hl : lookupD [(r.k, old)] r.k = some old := lookupD_cons_self _ _ _
  have hpl : (persistRow [(r.k, old)] r).leads = clamp_monotonic r.leads old.leads := by
    simp [persistRow, hl]
  have hps : (persistRow [(r.k, old)] r).sales = clamp_monotonic r.sales old.sales := by
    simp [persistRow, hl]
  refine ⟨?_, ?_, ?_, ?_, ?_⟩
  · rw [runSameDay, foldl_step_newMap]
    exact lookupD_insertD_self [] r.k _
  · intro h
    have hc : clamp_monotonic r.leads old.leads = old.leads := clamp_of_lt h
    refine ⟨by rw [hpl, hc], ?_⟩
    rw [runSameDay, foldl_step_leadMsgs]
    show [] ++ leadFor [(r.k, old)] r = []
    rw [leadFor_of_clamp_fix _ r old hl hc]
    rfl
  · intro h
    have hc : clamp_monotonic r.sales old.sales = old.sales := clamp_of_lt h
    refine ⟨by rw [hps, hc], ?_⟩
    rw [runSameDay, foldl_step_saleMsgs]
    show [] ++ saleFor [(r.k, old)] r = []
    rw [saleFor_of_clamp_fix _ r old hl hc]
    rfl
  · rw [hpl]
    exact clamp_lower _ _
  · rw [hps]
    exact clamp_lower _ _

/-- Claim C5 witness: stored leads 10 and sales 5, captured leads 7 and sales 2
— the old values are persisted and no LEAD or SALE message is emitted. -/
theorem C5_witness :
    (persistRow [(("k" : String), mkRow "k" 0 10 5)] (mkRow "k" 0 7 2)).leads =
      (mkRow "k" 0 10 5).leads ∧
    (runSameDay .both [("k", mkRow "k" 0 10 5)] [mkRow "k" 0 7 2]).leadMsgs = [] ∧
    (persistRow [("k", mkRow "k" 0 10 5)] (mkRow "k" 0 7 2)).sales =
      (mkRow "k" 0 10 5).sales ∧
    (runSameDay .both [("k", mkRow "k" 0 10 5)] [mkRow "k" 0 7 2]).saleMsgs = [] := by
  have T := C5_monotonic_clamp .both (mkRow "k" 0 10 5) (mkRow "k" 0 7 2)
  obtain ⟨-, h2, h3, -, -⟩ := T
  have hL := h2 (by norm_num [mkRow, CLAMP_TOL])
  have hS := h3 (by norm_num [mkRow, CLAMP_TOL])
  exact ⟨hL.1, hL.2, hS.1, hS.2⟩

/-- Claim C5 counterexample: with stored leads 10 and captured leads
`10 - 1e-7` (a regression smaller than the `1e-6` tolerance), the code persists
the regressed value, not the old one, so the claim's "if new < old then the
persisted value equals the old value" is false as stated. -/
theorem C5_counterexample :
    lookupD (runSameDay .both [("k", mkRow "k" 0 10 0)]
        [mkRow "k" 0 (10 - 1/10000000) 0]).newMap "k" =
      some (mkRow "k" 0 (10 - 1/10000000) 0) ∧
    (10 - 1/10000000 : ℚ) < 10 ∧ (10 - 1/10000000 : ℚ) ≠ 10 := by
  refine ⟨?_, by norm_num, by norm_num⟩
  norm_num [runSameDay, step, spendStep, leadFor, saleFor, persistRow, insertD, lookupD,
    replaceD, mkRow, clamp_monotonic, CLAMP_TOL, EPS, direction_ok, updateBestGuarded,
    pct, abs]

/-! ### Claim C7 -/

/-- Claim C7, corrected.  There is no first-sighting policy toggle in the code:
for every configuration value, a key absent from the previous snapshot with
`cost > EPS` unconditionally produces exactly one synthetic SPEND message with
previous value 0. -/
theorem C7_first_sighting_unconditional (d : Direction) (r : Row) (h : EPS < r.cost) :
    spendMsgsOf (runSameDay d [] [r]) = [⟨r.k, 0, r.cost, r.cost, 100⟩] := by
  rw [spendMsgsOf, runSameDay, foldl_step_spendBest]
  show (spendStep d [] [] r).map _ = _
  simp [spendStep, lookupD, h, insertD]

/-- Claim C7 witness: even under direction `down` — the most restrictive
configuration — a first-sighted row with cost 50 emits the synthetic event. -/
theorem C7_witness :
    EPS < (mkRow "c" 50 0 0).cost ∧
    spendMsgsOf (runSameDay .down [] [mkRow "c" 50 0 0]) =
      [⟨(mkRow "c" 50 0 0).k, 0, (mkRow "c" 50 0 0).cost, (mkRow "c" 50 0 0).cost, 100⟩] :=
  ⟨by norm_num [EPS, mkRow],
   C7_first_sighting_unconditional .down (mkRow "c" 50 0 0) (by norm_num [EPS, mkRow])⟩

/-- Claim C7 counterexample: the claim says a "silent baseline" policy setting
produces no event for a first sighting with cost 50; the entire configuration
surface is the direction switch, and all three of its values emit the event —
no silent setting exists. -/
theorem C7_counterexample :
    spendMsgsOf (runSameDay .up [] [mkRow "b" 50 0 0]) = [⟨"b", 0, 50, 50, 100⟩] ∧
    spendMsgsOf (runSameDay .down [] [mkRow "b" 50 0 0]) = [⟨"b", 0, 50, 50, 100⟩] ∧
    spendMsgsOf (runSameDay .both [] [mkRow "b" 50 0 0]) = [⟨"b", 0, 50, 50, 100⟩] := by
  refine ⟨?_, ?_, ?_⟩ <;>
    norm_num [spendMsgsOf, runSameDay, step, spendStep, lookupD, insertD, mkRow, EPS]

/-! ### Claim C9 -/

theorem aggStep_lookup_self (acc : List (String × Row)) (r : Row) :
    lookupD (aggStep acc r) r.k =
      some (match lookupD acc r.k with
            | some a => mergeRow a r
            | none => r) := by
  unfold aggStep
  cases h : lookupD acc r.k with
  | none =>
    rw [lookupD_append, h]
    simp [lookupD]
  | some a =>
    rw [lookupD_replaceD_self, h]
    rfl

theorem aggStep_lookup_ne (acc : List (String × Row)) (r : Row) (k : String)
    (h : k ≠ r.k) : lookupD (aggStep acc r) k = lookupD acc k := by
  unfold aggStep
  cases h0 : lookupD acc r.k with
  | none =>
    rw [lookupD_append]
    cases h1 : lookupD acc k with
    | none => simp [lookupD, Ne.symm h]
    | some v => simp
  | some a => exact lookupD_replaceD_ne acc r.k k _ h

theorem aggFold_lookup (k : String) (rows : List Row) :
    ∀ acc : List (String × Row),
      lookupD (rows.foldl aggStep acc) k =
        match lookupD acc k with
        | some a => some ((rows.filter (fun x => decide (x.k = k))).foldl mergeRow a)
        | none =>
          match rows.filter (fun x => decide (x.k = k)) with
          | [] => none
          | r :: rest => some (rest.foldl mergeRow r) := by
  induction rows with
  | nil =>
    intro acc
    cases h : lookupD acc k <;> simp [h]
  | cons r0 rest ih =>
    intro acc
    rw [List.foldl_cons, ih (aggStep acc r0)]
    by_cases hk : r0.k = k
    · subst hk
      rw [aggStep_lookup_self]
      cases h0 : lookupD acc r0.k with
      | some a => simp [h0, List.filter_cons]
      | none => simp [h0, List.filter_cons]
    · rw [aggStep_lookup_ne acc r0 k (fun e => hk e.symm)]
      cases h0 : lookupD acc k <;> simp [h0, List.filter_cons, hk]

theorem foldl_merge_init_le (f : Row → ℚ)
    (hmax : ∀ a r, f (mergeRow a r) = max (f a) (f r)) (l : List Row) :
    ∀ a : Row, f a ≤ f (l.foldl mergeRow a) := by
  induction l with
  | nil => intro a; exact le_refl _
  | cons r t ih =>
    intro a
    refine le_trans ?_ (ih (mergeRow a r))
    rw [hmax]
    exact le_max_left _ _

theorem foldl_merge_mem_le (f : Row → ℚ)
    (hmax : ∀ a r, f (mergeRow a r) = max (f a) (f r)) (l : List Row) :
    ∀ (a x : Row), x ∈ l → f x ≤ f (l.foldl mergeRow a) := by
  induction l with
  | nil => intro a x hx; cases hx
  | cons r t ih =>
    intro a x hx
    rcases List.mem_cons.mp hx with rfl | hxt
    · refine le_trans ?_ (foldl_merge_init_le f hmax t (mergeRow a x))
      rw [hmax]
      exact le_max_right _ _
    · exact ih (mergeRow a r) x hxt

theorem foldl_merge_attained (f : Row → ℚ)
    (hmax : ∀ a r, f (mergeRow a r) = max (f a) (f r)) (l : List Row) :
    ∀ a : Row, f (l.foldl mergeRow a) = f a ∨ ∃ x ∈ l, f (l.foldl mergeRow a) = f x := by
  induction l with
  | nil => intro a; exact Or.inl rfl
  | cons r t ih =>
    intro a
    rcases ih (mergeRow a r) with h | ⟨x, hx, he⟩
    · rw [List.foldl_cons]
      rcases max_choice (f a) (f r) with hm | hm
      · left; rw [h, hmax, hm]
      · right; exact ⟨r, List.mem_cons_self r t, by rw [h, hmax, hm]⟩
    · right
      exact ⟨x, List.mem_cons_of_mem r hx, by rw [List.foldl_cons]; exact he⟩

theorem nodup_keysD_aggStep (acc : List (String × Row)) (r : Row)
    (h : (keysD acc).Nodup) : (keysD (aggStep acc r)).Nodup := by
  unfold aggStep
  cases h0 : lookupD acc r.k with
  | none =>
    have he : acc ++ [(r.k, r)] = insertD acc r.k r := by rw [insertD, h0]
    rw [he]
    exact nodup_keysD_insertD _ _ _ h
  | some a => simpa [keysD_replaceD] using h

theorem nodup_keysD_aggMap (rows : List Row) : (keysD (aggMap rows)).Nodup := by
  rw [aggMap]
  have hgen : ∀ acc, (keysD acc).Nodup → (keysD (rows.foldl aggStep acc)).Nodup := by
    induction rows with
    | nil => intro acc h; exact h
    | cons r t ih => intro acc h; exact ih _ (nodup_keysD_aggStep acc r h)
  exact hgen [] (by simp [keysD])

/-- Claim C9, confirmed.  `aggregate_rows_max` keeps exactly one row per key,
and for every key occurring in the input its merged row carries, per metric
(`cost`, `leads`, `sales`), the maximum of the values observed for that key
(an upper bound that is attained by some input row with that key). -/
theorem C9_aggregate_max (rows : List Row) (k : String)
    (h : ∃ x ∈ rows, x.k = k) :
    (keysD (aggMap rows)).Nodup ∧
    ∃ a, lookupD (aggMap rows) k = some a ∧ a ∈ aggregate_rows_max rows ∧
      (∀ x ∈ rows, x.k = k → x.cost ≤ a.cost ∧ x.leads ≤ a.leads ∧ x.sales ≤ a.sales) ∧
      (∃ x ∈ rows, x.k = k ∧ a.cost = x.cost) ∧
      (∃ x ∈ rows, x.k = k ∧ a.leads = x.leads) ∧
      (∃ x ∈ rows, x.k = k ∧ a.sales = x.sales) := by
  refine ⟨nodup_keysD_aggMap rows, ?_⟩
  have hl : lookupD (aggMap rows) k =
      match rows.filter (fun x => decide (x.k = k)) with
      | [] => none
      | r :: rest => some (rest.foldl mergeRow r) := by
    rw [aggMap, aggFold_lookup k rows []]
    rfl
  cases hf : rows.filter (fun x => decide (x.k = k)) with
  | nil =>
    obtain ⟨x, hx, hxk⟩ := h
    have hmem : x ∈ rows.filter (fun x => decide (x.k = k)) :=
      List.mem_filter.mpr ⟨hx, by simp [hxk]⟩
    rw [hf] at hmem
    cases hmem
  | cons r0 rest =>
    rw [hf] at hl
    have hmemf : ∀ x, x ∈ r0 :: rest → x ∈ rows ∧ x.k = k := by
      intro x hx
      have : x ∈ rows.filter (fun x => decide (x.k = k)) := by
        rw [hf]; exact hx
      have h' := List.mem_filter.mp this
      exact ⟨h'.1, by simpa using h'.2⟩
    refine ⟨rest.foldl mergeRow r0, hl, ?_, ?_, ?_, ?_, ?_⟩
    · rw [aggregate_rows_max]
      exact List.mem_map_of_mem Prod.snd (mem_of_lookupD_eq_some hl)
    · intro x hx hxk
      have hxf : x ∈ r0 :: rest := by
        rw [← hf]
        exact List.mem_filter.mpr ⟨hx, by simp [hxk]⟩
      rcases List.mem_cons.mp hxf with rfl | hxr
      · exact ⟨foldl_merge_init_le Row.cost (fun a r => rfl) rest x,
          foldl_merge_init_le Row.leads (fun a r => rfl) rest x,
          foldl_merge_init_le Row.sales (fun a r => rfl) rest x⟩
      · exact ⟨foldl_merge_mem_le Row.cost (fun a r => rfl) rest r0 x hxr,
          foldl_merge_mem_le Row.leads (fun a r => rfl) rest r0 x hxr,
          foldl_merge_mem_le Row.sales (fun a r => rfl) rest r0 x hxr⟩
    · rcases foldl_merge_attained Row.cost (fun a r => rfl) rest r0 with h0 | ⟨x, hx, he⟩
      · have hr0 := hmemf r0 (List.mem_cons_self r0 rest)
        exact ⟨r0, hr0.1, hr0.2, h0⟩
      · have hx' := hmemf x (List.mem_cons_of_mem r0 hx)
        exact ⟨x, hx'.1, hx'.2, he⟩
    · rcases foldl_merge_attained Row.leads (fun a r => rfl) rest r0 with h0 | ⟨x, hx, he⟩
      · have hr0 := hmemf r0 (List.mem_cons_self r0 rest)
        exact ⟨r0, hr0.1, hr0.2, h0⟩
      · have hx' := hmemf x (List.mem_cons_of_mem r0 hx)
        exact ⟨x, hx'.1, hx'.2, he⟩
    · rcases foldl_merge_attained Row.sales (fun a r => rfl) rest r0 with h0 | ⟨x, hx, he⟩
      · have hr0 := hmemf r0 (List.mem_cons_self r0 rest)
        exact ⟨r0, hr0.1, hr0.2, h0⟩
      · have hx' := hmemf x (List.mem_cons_of_mem r0 hx)
        exact ⟨x, hx'.1, hx'.2, he⟩

/-- Claim C9 witness: two raw rows with the same key and costs 5 and 8
aggregate to a single row with cost 8 (and element-wise maxima of the other
metrics), and the general theorem applies to that input. -/
theorem C9_witness :
    aggregate_rows_max [mkRow "k" 5 1 0, mkRow "k" 8 0 2] =
      [⟨"k", "camp", "s6", "s5", "s4", "", 8, 1, 2, 0⟩] ∧
    ((keysD (aggMap [mkRow "k" 5 1 0, mkRow "k" 8 0 2])).Nodup ∧
    ∃ a, lookupD (aggMap [mkRow "k" 5 1 0, mkRow "k" 8 0 2]) "k" = some a ∧
      a ∈ aggregate_rows_max [mkRow "k" 5 1 0, mkRow "k" 8 0 2] ∧
      (∀ x ∈ [mkRow "k" 5 1 0, mkRow "k" 8 0 2], x.k = "k" →
        x.cost ≤ a.cost ∧ x.leads ≤ a.leads ∧ x.sales ≤ a.sales) ∧
      (∃ x ∈ [mkRow "k" 5 1 0, mkRow "k" 8 0 2], x.k = "k" ∧ a.cost = x.cost) ∧
      (∃ x ∈ [mkRow "k" 5 1 0, mkRow "k" 8 0 2], x.k = "k" ∧ a.leads = x.leads) ∧
      (∃ x ∈ [mkRow "k" 5 1 0, mkRow "k" 8 0 2], x.k = "k" ∧ a.sales = x.sales)) :=
  ⟨by norm_num [aggregate_rows_max, aggMap, aggStep, mergeRow, lookupD, insertD,
      replaceD, mkRow],
   C9_aggregate_max [mkRow "k" 5 1 0, mkRow "k" 8 0 2] "k"
     ⟨mkRow "k" 5 1 0, by simp, by simp [mkRow]⟩⟩

/-! ### Claim C8 -/

/-- Claim C8, corrected.  `parse_report_from_json` performs no trimming,
whitespace collapsing, or invisible-character stripping: dimension values enter
the key verbatim, so appending a single space to a non-empty campaign always
changes the key. -/
theorem C8_no_normalization (r : RawRow) (h : r.campaign ≠ "") :
    (parseRow { r with campaign := r.campaign ++ " " }).k ≠ (parseRow r).k := by
  have hsp : (" " : String).length = 1 := rfl
  have h2 : r.campaign ++ " " ≠ "" := by
    intro h0
    have hlen := congrArg String.length h0
    rw [String.length_append, hsp] at hlen
    simp at hlen
  intro heq
  have hlen := congrArg String.length heq
  simp only [parseRow, rawKey, gCampaign, gSub6, gSub5, gSub4, gGeoVal, pyOr, h, h2,
    if_false, String.length_append, hsp] at hlen
  omega

/-- Claim C8 witness: the general no-normalization theorem applied to a
concrete raw row. -/
theorem C8_witness :
    (parseRow { rawA with campaign := rawA.campaign ++ " " }).k ≠ (parseRow rawA).k :=
  C8_no_normalization rawA (by decide)

/-- Claim C8 counterexample: `rawB` differs from `rawA` only by a trailing
space in the campaign, yet the two rows normalize to different keys — the claim
says such captures must produce the same key. -/
theorem C8_counterexample :
    (parseRow rawB).k ≠ (parseRow rawA).k ∧
    rawB = { rawA with campaign := rawA.campaign ++ " " } := by
  constructor
  · decide
  · decide

/-! ### Claim C10 -/

theorem wfBest_replaceD (m : List (String × (ℚ × SpendMsg))) (k : String)
    (v : ℚ × SpendMsg) (hkey : v.2.key = k) (h : wfBest m) : wfBest (replaceD m k v) := by
  refine ⟨by rw [keysD_replaceD]; exact h.1, ?_⟩
  intro p hp
  unfold replaceD at hp
  obtain ⟨q, hq, hpq⟩ := List.mem_map.mp hp
  by_cases hqk : q.1 = k
  · rw [← hpq, if_pos hqk]
    exact hkey
  · rw [← hpq, if_neg hqk]
    exact h.2 q hq

theorem wfBest_insertD (m : List (String × (ℚ × SpendMsg))) (k : String)
    (v : ℚ × SpendMsg) (hkey : v.2.key = k) (h : wfBest m) : wfBest (insertD m k v) := by
  refine ⟨nodup_keysD_insertD _ _ _ h.1, ?_⟩
  intro p hp
  unfold insertD at hp
  revert hp
  cases h0 : lookupD m k with
  | some w =>
    intro hp
    exact (wfBest_replaceD m k v hkey h).2 p hp
  | none =>
    intro hp
    rcases List.mem_append.mp hp with hp | hp
    · exact h.2 p hp
    · have hpv : p = (k, v) := List.mem_singleton.mp hp
      subst hpv
      exact hkey

theorem wfBest_updateBestGuarded (m : List (String × (ℚ × SpendMsg))) (k : String)
    (score : ℚ) (msg : SpendMsg) (hkey : msg.key = k) (h : wfBest m) :
    wfBest (updateBestGuarded m k score msg) := by
  unfold updateBestGuarded
  cases h0 : lookupD m k with
  | none =>
    have he : m ++ [(k, (score, msg))] = insertD m k (score, msg) := by
      rw [insertD, h0]
    rw [he]
    exact wfBest_insertD m k (score, msg) hkey h
  | some best =>
    show wfBest (if best.1 + SCORE_TOL < score then replaceD m k (score, msg) else m)
    by_cases hlt : best.1 + SCORE_TOL < score
    · rw [if_pos hlt]
      exact wfBest_replaceD m k (score, msg) hkey h
    · rw [if_neg hlt]
      exact h

theorem wfBest_spendStep (d : Direction) (prev : List (String × Row)) (r : Row)
    (m : List (String × (ℚ × SpendMsg))) (h : wfBest m) :
    wfBest (spendStep d prev m r) := by
  unfold spendStep
  cases h0 : lookupD prev r.k with
  | some old =>
    by_cases hd : direction_ok d (clamp_monotonic r.cost old.cost - old.cost) = true
    · simp only [hd, if_true]
      exact wfBest_updateBestGuarded _ _ _ _ rfl h
    · simp only [Bool.not_eq_true] at hd
      simp only [hd, Bool.false_eq_true, if_false]
      exact h
  | none =>
    by_cases hc : EPS < r.cost
    · rw [if_pos hc]
      exact wfBest_insertD _ _ _ rfl h
    · rw [if_neg hc]
      exact h

theorem wfBest_foldl_spendStep (d : Direction) (prev : List (String × Row))
    (rows : List Row) (m : List (String × (ℚ × SpendMsg))) (h : wfBest m) :
    wfBest (rows.foldl (spendStep d prev) m) := by
  induction rows generalizing m with
  | nil => exact h
  | cons r t ih => exact ih _ (wfBest_spendStep d prev r m h)

/-- Claim C10, corrected on its parenthetical: `best_spend_msg` is a dict keyed
by `k`, so at most one SPEND message per key survives to delivery — but the
kept message is not always the one with the largest absolute delta, because a
first-sighting candidate overwrites unconditionally (and a present-key
candidate replaces only when it wins by more than `1e-9`). -/
theorem C10_one_spend_per_key (d : Direction) (prev : List (String × Row))
    (rows : List Row) :
    ((spendMsgsOf (runSameDay d prev rows)).map SpendMsg.key).Nodup := by
  have hwf : wfBest (runSameDay d prev rows).spendBest := by
    rw [runSameDay, foldl_step_spendBest]
    exact wfBest_foldl_spendStep d prev rows _ ⟨List.nodup_nil, by simp⟩
  obtain ⟨hnd, hkeys⟩ := hwf
  rw [spendMsgsOf, List.map_map]
  have he : (runSameDay d prev rows).spendBest.map (SpendMsg.key ∘ fun p => p.2.2) =
      keysD (runSameDay d prev rows).spendBest :=
    List.map_congr_left (fun p hp => hkeys p hp)
  rw [he]
  exact hnd

/-- Claim C10 counterexample: two first-sighting rows with the same key and
costs 100 then 1 — the kept message is the second one (score 1), although a
candidate with the larger absolute delta 100 arose for that key. -/
theorem C10_counterexample :
    spendMsgsOf (runSameDay .up [] [mkRow "a" 100 0 0, mkRow "a" 1 0 0]) =
      [⟨"a", 0, 1, 1, 100⟩] ∧ (1 : ℚ) < 100 := by
  refine ⟨?_, by norm_num⟩
  norm_num [spendMsgsOf, runSameDay, step, spendStep, lookupD, insertD, replaceD,
    mkRow, EPS]

/-! ### Claim C6 -/

/-- Claim C6, confirmed.  After a same-day run persists its `new_map`, a second
same-day run over the identical capture (with distinct keys, as the aggregator
guarantees) emits no spend, lead, or sale message: every key now resolves to its
persisted row, whose metrics are a fixed point of the clamp, so every delta is
zero. -/
theorem C6_idempotent_rerun (d : Direction) (prev : List (String × Row)) (rows : List Row)
    (hnd : (rows.map Row.k).Nodup) :
    spendMsgsOf (runSameDay d (runSameDay d prev rows).newMap rows) = [] ∧
    (runSameDay d (runSameDay d prev rows).newMap rows).leadMsgs = [] ∧
    (runSameDay d (runSameDay d prev rows).newMap rows).saleMsgs = [] := by
  set p2 := (runSameDay d prev rows).newMap with hp2
  have hNM : ∀ r ∈ rows, lookupD p2 r.k = some (persistRow prev r) := by
    intro r hr
    rw [hp2, runSameDay, foldl_step_newMap]
    exact lookupD_foldl_insertD_mem Row.k (persistRow prev) rows _ r hr hnd
  refine ⟨?_, ?_, ?_⟩
  · rw [spendMsgsOf, runSameDay, foldl_step_spendBest,
      foldl_fix (spendStep d p2) rows _ (fun r hr m =>
        spendStep_of_clamp_fix d p2 r (persistRow prev r) (hNM r hr)
          (persistRow_cost_fix prev r) m)]
    rfl
  · rw [runSameDay, foldl_step_leadMsgs,
      foldl_fix _ rows _ (fun r hr a => by
        rw [leadFor_of_clamp_fix p2 r (persistRow prev r) (hNM r hr)
          (persistRow_leads_fix prev r), List.append_nil])]
  · rw [runSameDay, foldl_step_saleMsgs,
      foldl_fix _ rows _ (fun r hr a => by
        rw [saleFor_of_clamp_fix p2 r (persistRow prev r) (hNM r hr)
          (persistRow_sales_fix prev r), List.append_nil])]

/-- Claim C6 witness: a concrete two-key capture re-run against the state its
first run persisted yields no messages at all. -/
theorem C6_witness :
    (([mkRow "k" 100 5 2, mkRow "j" 3 0 0] : List Row).map Row.k).Nodup ∧
    (spendMsgsOf (runSameDay .both
        (runSameDay .both [("k", mkRow "k" 10 1 0)]
          [mkRow "k" 100 5 2, mkRow "j" 3 0 0]).newMap
        [mkRow "k" 100 5 2, mkRow "j" 3 0 0]) = [] ∧
    (runSameDay .both
        (runSameDay .both [("k", mkRow "k" 10 1 0)]
          [mkRow "k" 100 5 2, mkRow "j" 3 0 0]).newMap
        [mkRow "k" 100 5 2, mkRow "j" 3 0 0]).leadMsgs = [] ∧
    (runSameDay .both
        (runSameDay .both [("k", mkRow "k" 10 1 0)]
          [mkRow "k" 100 5 2, mkRow "j" 3 0 0]).newMap
        [mkRow "k" 100 5 2, mkRow "j" 3 0 0]).saleMsgs = []) :=
  ⟨by decide,
   C6_idempotent_rerun .both [("k", mkRow "k" 10 1 0)]
     [mkRow "k" 100 5 2, mkRow "j" 3 0 0] (by decide)⟩

end KtBot
